import Mathlib

/-!
Verification of the Cartographer codebase-analysis core: a shallow embedding
of the knowledge graph, graph queries, query parser, orchestrator and the
shared agent knowledge base, with theorems checking the specification's
claims against the code.

Components whose TypeScript sources are present (orchestrator, query parser,
architect cycle detection, knowledge base, graph build step) are translated
from the source.  The knowledge-graph store, the graph-query algorithms and
the query planner are absent from the sources (only their callers are), so
they are modelled from the spec; each such definition says so in its doc
comment.
-/

namespace Cartographer

/-- Node type enumeration from the data model (File, Folder, Function). -/
inductive NodeType where
  | File
  | Folder
  | Function
deriving DecidableEq, Repr

/-- Edge type enumeration (IMPORTS, DEFINES, CALLS). -/
inductive EdgeType where
  | IMPORTS
  | DEFINES
  | CALLS
deriving DecidableEq, Repr

/-- Record of the `data` attributes actually read by the code: `path` for
files/folders, `name`/`file`/`startLine`/`calls` for functions. -/
structure NodeData where
  path : Option String := none
  name : Option String := none
  file : Option String := none
  startLine : Option Nat := none
  calls : List String := []
deriving DecidableEq, Repr

/-- Graph node: globally unique id, type, attribute record. -/
structure Node where
  id : String
  type : NodeType
  data : NodeData
deriving DecidableEq, Repr

/-- Directed edge; `source`/`target` embed the TypeScript fields
`from`/`to` (`from` is reserved in Lean). -/
structure Edge where
  source : String
  target : String
  type : EdgeType
deriving DecidableEq, Repr

/-- Modelled from the spec: the Knowledge Graph store of section 4.1
(knowledgeGraph.ts is not among the sources).  Nodes are kept in insertion
order, `addNode` overwrites by id, edges are appended without any checks. -/
structure KnowledgeGraph where
  nodes : List Node := []
  edges : List Edge := []
deriving DecidableEq, Repr

/-- Modelled from the spec: `addNode` inserts or overwrites by id. -/
def addNode (g : KnowledgeGraph) (n : Node) : KnowledgeGraph :=
  if g.nodes.any (fun m => m.id = n.id) then
    { g with nodes := g.nodes.map (fun m => if m.id = n.id then n else m) }
  else
    { g with nodes := g.nodes ++ [n] }

/-- Modelled from the spec: `addEdge` appends; no uniqueness or
endpoint-existence check. -/
def addEdge (g : KnowledgeGraph) (e : Edge) : KnowledgeGraph :=
  { g with edges := g.edges ++ [e] }

/-- Modelled from the spec: `getNode` returns the node with the given id or
an absent value. -/
def getNode (g : KnowledgeGraph) (id : String) : Option Node :=
  g.nodes.find? (fun n => n.id = id)

/-- Modelled from the spec: `getNodesByType` returns nodes of one type in
insertion order. -/
def getNodesByType (g : KnowledgeGraph) (t : NodeType) : List Node :=
  g.nodes.filter (fun n => n.type = t)

/-- Modelled from the spec: `getOutgoingEdges` returns the edges leaving the
given node id. -/
def getOutgoingEdges (g : KnowledgeGraph) (id : String) : List Edge :=
  g.edges.filter (fun e => e.source = id)

/-- Modelled from the spec: `getIncomingEdges` returns the edges entering
the given node id. -/
def getIncomingEdges (g : KnowledgeGraph) (id : String) : List Edge :=
  g.edges.filter (fun e => e.target = id)

/-- Finding record stored by the knowledge base (knowledge-base.ts); the
payload type is `any` in the source, embedded as a type parameter. -/
structure AgentFinding (α : Type) where
  agent : String
  timestamp : Nat
  data : α
deriving DecidableEq, Repr

/-- Shared knowledge base (knowledge-base.ts): a map from agent name to its
latest finding, embedded as an association list in key-insertion order
(JavaScript `Map` semantics: `set` on an existing key overwrites in place). -/
structure KnowledgeBase (α : Type) where
  storage : List (String × AgentFinding α) := []
deriving DecidableEq, Repr

/-- KnowledgeBase.store: record a finding under the agent's name,
overwriting any previous finding of the same agent; `now` stands for
`Date.now()`. -/
def KnowledgeBase.store (kb : KnowledgeBase α) (agentName : String) (d : α)
    (now : Nat) : KnowledgeBase α :=
  if kb.storage.any (fun kv => kv.1 = agentName) then
    ⟨kb.storage.map (fun kv =>
      if kv.1 = agentName then (kv.1, ⟨agentName, now, d⟩) else kv)⟩
  else
    ⟨kb.storage ++ [(agentName, ⟨agentName, now, d⟩)]⟩

/-- KnowledgeBase.get: the payload of the named agent's finding, or absent. -/
def KnowledgeBase.get (kb : KnowledgeBase α) (agentName : String) : Option α :=
  (kb.storage.find? (fun kv => kv.1 = agentName)).map (fun kv => kv.2.data)

/-- Insertion-order deduplication, as a JavaScript `Set` fed by iteration
(first occurrence kept). -/
def dedupFirst (l : List String) : List String :=
  l.foldl (fun acc x => if acc.contains x then acc else acc ++ [x]) []

/-- Modelled from the spec: `findFunctionByName` — exact, case-sensitive
match over Function node `data.name`, in node-insertion order
(graphQueries.ts is not among the sources). -/
def findFunctionByName (g : KnowledgeGraph) (name : String) : List Node :=
  (getNodesByType g .Function).filter (fun n => n.data.name = some name)

/-- Result record of the blast-radius query. -/
structure BlastRadius where
  affectedFunctions : List String
  affectedFiles : List String
  depth : Nat
deriving DecidableEq, Repr

/-- Sources of the CALLS edges entering `id`: the functions that directly
depend on `id`. -/
def callersOf (g : KnowledgeGraph) (id : String) : List String :=
  ((getIncomingEdges g id).filter (fun e => e.type = .CALLS)).map
    (fun e => e.source)

/-- One BFS level: the callers of the frontier nodes that are neither
visited nor already gathered in this level, in discovery order. -/
def bfsLevel (g : KnowledgeGraph) (visited frontier : List String) :
    List String :=
  frontier.foldl (fun acc f =>
    (callersOf g f).foldl (fun acc c =>
      if visited.contains c || acc.contains c then acc else acc ++ [c]) acc) []

/-- Fuel-indexed BFS loop over incoming CALLS edges; returns the discovery
order (excluding the start node) and the maximum level reached.  The fuel
only bounds the number of levels; `bfsFuel` below always suffices. -/
def bfsAux (g : KnowledgeGraph) :
    Nat → List String → List String → List String → Nat →
    List String × Nat
  | 0, _, _, order, depth => (order, depth)
  | fuel + 1, visited, frontier, order, depth =>
    if bfsLevel g visited frontier = [] then (order, depth)
    else bfsAux g fuel (visited ++ bfsLevel g visited frontier)
      (bfsLevel g visited frontier) (order ++ bfsLevel g visited frontier)
      (depth + 1)

/-- Sufficient fuel for `bfsAux`: every discovered node is the source of
some CALLS edge, and each level discovers at least one new node. -/
def bfsFuel (g : KnowledgeGraph) : Nat :=
  g.edges.length + 1

/-- Modelled from the spec: `functionBlastRadius` — breadth-first traversal
over CALLS edges in the incoming direction starting from `functionId`,
tracking visited ids; affected files are the `data.file` entries of the
affected functions, deduplicated (graphQueries.ts is not among the
sources). -/
def functionBlastRadius (g : KnowledgeGraph) (functionId : String) :
    BlastRadius :=
  let r := bfsAux g (bfsFuel g) [functionId] [functionId] [] 0
  { affectedFunctions := r.1
    affectedFiles :=
      dedupFirst (r.1.filterMap (fun i => (getNode g i).bind (fun n => n.data.file)))
    depth := r.2 }

/-- Insert into a sorted list, before the first element it precedes
(stable insertion sort step). -/
def insertSorted (le : α → α → Bool) (x : α) : List α → List α
  | [] => [x]
  | y :: ys => if le x y then x :: y :: ys else y :: insertSorted le x ys

/-- Stable sort by the given preorder test, used for the deterministic
rankings. -/
def sortBy (le : α → α → Bool) (l : List α) : List α :=
  l.foldr (insertSorted le) []

/-- Entry of the centrality ranking. -/
structure CentralityEntry where
  functionId : String
  centrality : Nat
  inDegree : Nat
  outDegree : Nat
deriving DecidableEq, Repr

/-- Modelled from the spec: `functionCentrality` — in-degree plus out-degree
over CALLS edges for every Function node, sorted descending by centrality
with ties broken by id ascending (graphQueries.ts is not among the
sources). -/
def functionCentrality (g : KnowledgeGraph) : List CentralityEntry :=
  let entries := (getNodesByType g .Function).map (fun n =>
    let inD := ((getIncomingEdges g n.id).filter (fun e => e.type = .CALLS)).length
    let outD := ((getOutgoingEdges g n.id).filter (fun e => e.type = .CALLS)).length
    ⟨n.id, inD + outD, inD, outD⟩)
  sortBy (fun a b =>
    decide (b.centrality < a.centrality ∨
      (a.centrality = b.centrality ∧ a.functionId ≤ b.functionId))) entries

/-- Entry of the file-importance ranking. -/
structure ImportanceEntry where
  fileId : String
  importance : Nat
  functionCount : Nat
deriving DecidableEq, Repr

/-- Modelled from the spec: `fileImportance` — composite score weighting the
DEFINES out-degree and the number of distinct importers; the exact formula
is not in the sources, modelled as their sum (the two ingredients the spec
requires at minimum), sorted descending with ties by id ascending. -/
def fileImportance (g : KnowledgeGraph) : List ImportanceEntry :=
  let entries := (getNodesByType g .File).map (fun n =>
    let functionCount :=
      ((getOutgoingEdges g n.id).filter (fun e => e.type = .DEFINES)).length
    let importers := dedupFirst
      (((getIncomingEdges g n.id).filter (fun e => e.type = .IMPORTS)).map
        (fun e => e.source))
    ⟨n.id, functionCount + importers.length, functionCount⟩)
  sortBy (fun a b =>
    decide (b.importance < a.importance ∨
      (a.importance = b.importance ∧ a.fileId ≤ b.fileId))) entries

/-- ASCII whitespace recognized by the source's regex `\s` and by `trim`
(the embedding covers the ASCII range of the questions). -/
def wsChar (c : Char) : Bool :=
  c = ' ' || c = '\t' || c = '\n' || c = '\r' ||
    c = Char.ofNat 11 || c = Char.ofNat 12

/-- Character class `[a-zA-Z0-9_\-\.\/]` used by every target capture in
queryParser.ts. -/
def targetChar (c : Char) : Bool :=
  decide (97 ≤ c.toNat ∧ c.toNat ≤ 122) ||
  decide (65 ≤ c.toNat ∧ c.toNat ≤ 90) ||
  decide (48 ≤ c.toNat ∧ c.toNat ≤ 57) ||
  c = '_' || c = '-' || c = '.' || c = '/'

/-- ASCII lower-casing, the effect of `toLowerCase` on the characters the
parser's patterns can consume. -/
def toLowerChar (c : Char) : Char :=
  if 65 ≤ c.toNat ∧ c.toNat ≤ 90 then Char.ofNat (c.toNat + 32) else c

/-- Trim of a character list: leading and trailing whitespace removed. -/
def trimChars (l : List Char) : List Char :=
  ((l.dropWhile wsChar).reverse.dropWhile wsChar).reverse

/-- Normalized question: `question.toLowerCase().trim()` over characters. -/
def normalize (q : String) : List Char :=
  trimChars (q.data.map toLowerChar)

/-- Syntax of the regular expressions used by queryParser.ts: literals,
one-or-more repetitions of a character class, concatenation, alternation,
an optional piece, and the single capture group. -/
inductive Re where
  | lit : List Char → Re
  | plus : (Char → Bool) → Re
  | cat : Re → Re → Re
  | alt : Re → Re → Re
  | opt : Re → Re
  | grp : Re → Re

/-- Splits of a greedy one-or-more class repetition, longest first:
`takeDrop n input k` enumerates `(input.take i, input.drop i)` for
`i = k, k-1, ..., 1`. -/
def greedySplits (input : List Char) : Nat → List (List Char × List Char)
  | 0 => []
  | k + 1 => (input.take (k + 1), input.drop (k + 1)) :: greedySplits input k

/-- Backtracking matcher: all ways the expression can match a front part of
the input, in the JavaScript engine's priority order (greedy repetition,
left alternative first).  Each outcome carries the capture of the group, if
the match went through one, and the remaining input. -/
def mtch : Re → List Char → List (Option (List Char) × List Char)
  | .lit s, input =>
    if s.isPrefixOf input then [(none, input.drop s.length)] else []
  | .plus p, input => (greedySplits input (input.takeWhile p).length).map
      (fun sr => (none, sr.2))
  | .cat a b, input => (mtch a input).flatMap (fun o₁ =>
      (mtch b o₁.2).map (fun o₂ => (o₁.1 <|> o₂.1, o₂.2)))
  | .alt a b, input => mtch a input ++ mtch b input
  | .opt a, input => mtch a input ++ [(none, input)]
  | .grp a, input => (mtch a input).map
      (fun o => (some (input.take (input.length - o.2.length)), o.2))

/-- Match attempt at the current position: the first outcome in priority
order, if any, yielding the content of the capture group. -/
def searchHere (re : Re) (input : List Char) : Option (List Char) :=
  ((mtch re input).head?).map (fun o => o.1.getD [])

/-- Leftmost search as JavaScript `String.match`: try the pattern at each
position, first matching position wins, first outcome in priority order at
that position; returns the content of the capture group. -/
def searchCapture (re : Re) : List Char → Option (List Char)
  | [] => searchHere re []
  | c :: rest =>
    match searchHere re (c :: rest) with
    | some cap => some cap
    | none => searchCapture re rest

/-- Pattern piece `\s+` matching one or more whitespace characters. -/
def wsPlus : Re := .plus wsChar

/-- The capture group `([a-zA-Z0-9_\-\.\/]+)` shared by all patterns. -/
def tgtGrp : Re := .grp (.plus targetChar)

/-- Optional connector `(?:\s+of|\s+in|\s+for)?`. -/
def ofInFor : Re :=
  .opt (.alt (.cat wsPlus (.lit "of".data))
    (.alt (.cat wsPlus (.lit "in".data)) (.cat wsPlus (.lit "for".data))))

/-- Optional connector `(?:\s+of|\s+in|\s+with)?` of the risk pattern. -/
def ofInWith : Re :=
  .opt (.alt (.cat wsPlus (.lit "of".data))
    (.alt (.cat wsPlus (.lit "in".data)) (.cat wsPlus (.lit "with".data))))

/-- Dependency pattern `(?:dependencies|imports)(?:\s+of|\s+in|\s+for)?\s+(t)`. -/
def depRe1 : Re :=
  .cat (.alt (.lit "dependencies".data) (.lit "imports".data))
    (.cat ofInFor (.cat wsPlus tgtGrp))

/-- Dependency pattern `what does\s+(t)\s+import`. -/
def depRe2 : Re :=
  .cat (.lit "what does".data)
    (.cat wsPlus (.cat tgtGrp (.cat wsPlus (.lit "import".data))))

/-- Usage pattern `(?:who calls|usage of|callers of|references to)\s+(t)`. -/
def usageRe1 : Re :=
  .cat (.alt (.lit "who calls".data)
      (.alt (.lit "usage of".data)
        (.alt (.lit "callers of".data) (.lit "references to".data))))
    (.cat wsPlus tgtGrp)

/-- Usage pattern `where is\s+(t)\s+used`. -/
def usageRe2 : Re :=
  .cat (.lit "where is".data)
    (.cat wsPlus (.cat tgtGrp (.cat wsPlus (.lit "used".data))))

/-- History pattern `(?:history|changes|commits|evolution)(?:\s+of|\s+in|\s+for)?\s+(t)`. -/
def histRe1 : Re :=
  .cat (.alt (.lit "history".data)
      (.alt (.lit "changes".data)
        (.alt (.lit "commits".data) (.lit "evolution".data))))
    (.cat ofInFor (.cat wsPlus tgtGrp))

/-- History pattern `who touched\s+(t)`. -/
def histRe2 : Re :=
  .cat (.lit "who touched".data) (.cat wsPlus tgtGrp)

/-- Risk pattern `(?:risks|issues|problems|vulnerabilities)(?:\s+of|\s+in|\s+with)?\s+(t)`. -/
def riskRe : Re :=
  .cat (.alt (.lit "risks".data)
      (.alt (.lit "issues".data)
        (.alt (.lit "problems".data) (.lit "vulnerabilities".data))))
    (.cat ofInWith (.cat wsPlus tgtGrp))

/-- Explanation pattern `(?:explain|document|describe|complexity of)\s+(t)`. -/
def explainRe : Re :=
  .cat (.alt (.lit "explain".data)
      (.alt (.lit "document".data)
        (.alt (.lit "describe".data) (.lit "complexity of".data))))
    (.cat wsPlus tgtGrp)

/-- Parsed query produced by QueryParser.parse. -/
structure ParsedQuery where
  intent : String
  target : String
  confidence : ℚ
deriving DecidableEq, Repr

/-- QueryParser.parse (queryParser.ts): lower-case and trim the question,
then try the five intent groups in fixed order, inside each group the first
regex then the fallback; the first match wins and yields confidence 0.9. -/
def parse (q : String) : Option ParsedQuery :=
  let n := normalize q
  match (searchCapture depRe1 n).orElse (fun _ => searchCapture depRe2 n) with
  | some cap => some ⟨"DEPENDENCIES", ⟨cap⟩, 9 / 10⟩
  | none =>
  match (searchCapture usageRe1 n).orElse (fun _ => searchCapture usageRe2 n) with
  | some cap => some ⟨"USAGE", ⟨cap⟩, 9 / 10⟩
  | none =>
  match (searchCapture histRe1 n).orElse (fun _ => searchCapture histRe2 n) with
  | some cap => some ⟨"HISTORY", ⟨cap⟩, 9 / 10⟩
  | none =>
  match searchCapture riskRe n with
  | some cap => some ⟨"RISKS", ⟨cap⟩, 9 / 10⟩
  | none =>
  match searchCapture explainRe n with
  | some cap => some ⟨"EXPLAIN", ⟨cap⟩, 9 / 10⟩
  | none => none

/-- Import dependency record (detective.ts `Dependency`); `source`/`target`
embed the TypeScript fields `from`/`to`. -/
structure Dependency where
  source : String
  target : String
deriving DecidableEq, Repr

/-- Adjacency list in key-insertion order, as the JavaScript `Map` built by
`findCycles`. -/
def Adjacency := List (String × List String)

/-- Insert one dependency into the adjacency list: append the target to the
existing entry of the source, or create the entry. -/
def addDep (g : List (String × List String)) (d : Dependency) :
    List (String × List String) :=
  if g.any (fun kv => kv.1 = d.source) then
    g.map (fun kv =>
      if kv.1 = d.source then (kv.1, kv.2 ++ [d.target]) else kv)
  else g ++ [(d.source, [d.target])]

/-- Adjacency list of a dependency list, built left to right. -/
def buildAdj (deps : List Dependency) : List (String × List String) :=
  deps.foldl addDep []

/-- Neighbors of a node in the adjacency list (`graph.get(node) || []`). -/
def neighborsOf (g : List (String × List String)) (n : String) : List String :=
  ((g.find? (fun kv => kv.1 = n)).map (fun kv => kv.2)).getD []

/-- Shared mutable state of the cycle-detection DFS: the visited set, the
recursion stack and the emitted cycles (architect.ts `findCycles`). -/
structure DfsState where
  visited : List String
  stack : List String
  cycles : List (List String)
deriving DecidableEq, Repr

/-- Cycle emission of `findCycles`: the path slice from the first
occurrence of the stacked neighbor to the current node, closed with the
neighbor.  JavaScript `path.slice(indexOf)` with a missing neighbor slices
at -1 and keeps the last element, mirrored by the fallback index; a
neighbor on the recursion stack is in fact always on the path. -/
def pushCycle (p : List String) (nb : String) (s : DfsState) : DfsState :=
  ⟨s.visited, s.stack,
    s.cycles ++ [p.drop (if p.contains nb then p.indexOf nb
      else p.length - 1) ++ [nb]]⟩

/-- End of a `visit` call: `recursionStack.delete(node)`. -/
def eraseNode (node : String) (s : DfsState) : DfsState :=
  ⟨s.visited, s.stack.erase node, s.cycles⟩

/-- One recursive `visit` call of `findCycles`: mark the node visited and
on the recursion stack, extend the path, scan the neighbors (recursing on
unvisited ones, emitting a cycle when a neighbor is on the stack), then
remove the node from the stack.  The fuel only bounds the recursion depth;
`dfsFuel` below always suffices. -/
def visit (g : List (String × List String)) :
    Nat → String → List String → DfsState → DfsState
  | 0, _, _, st => st
  | fuel + 1, node, path, st =>
    eraseNode node ((neighborsOf g node).foldl (fun s nb =>
      if s.visited.contains nb then
        if s.stack.contains nb then pushCycle (path ++ [node]) nb s
        else s
      else visit g fuel nb (path ++ [node]) s)
      ⟨st.visited ++ [node], st.stack ++ [node], st.cycles⟩)

/-- Cycle detection with explicit fuel: DFS from every unvisited key of the
adjacency list, in key order. -/
def findCyclesFuel (deps : List Dependency) (fuel : Nat) :
    List (List String) :=
  ((buildAdj deps).foldl (fun (s : DfsState) kv =>
    if s.visited.contains kv.1 then s
    else visit (buildAdj deps) fuel kv.1 [] s)
    ⟨[], [], []⟩).cycles

/-- All node names occurring in an adjacency list: its keys followed by
its neighbor entries. -/
def dfsNames (g : List (String × List String)) : List String :=
  g.map (fun kv => kv.1) ++ (g.map (fun kv => kv.2)).flatten

/-- Sufficient fuel for `visit`: the recursion descends only into nodes it
has not visited yet, and every node name occurs in the adjacency list. -/
def dfsFuel (deps : List Dependency) : Nat :=
  (dfsNames (buildAdj deps)).length + 1

/-- ArchitectAgent.findCycles (architect.ts): visited-set/recursion-stack
DFS cycle enumeration over the dependency list. -/
def findCycles (deps : List Dependency) : List (List String) :=
  findCyclesFuel deps (dfsFuel deps)

/-- Intent of a planner-produced query plan. -/
inductive PlanIntent where
  | blast_radius
  | central_functions
  | important_files
  | find_function
  | unknown
deriving DecidableEq, Repr

/-- Modelled from the spec: the Query Planner's output record
(queryPlanner.ts is not among the sources; section 4.4 specifies only this
interface, so the classifier itself is a parameter of `runQuery`). -/
structure QueryPlan where
  intent : PlanIntent
  functionName : Option String
deriving DecidableEq, Repr

/-- Detail entry stored by handleFindFunction's metadata. -/
structure FuncDetailEntry where
  id : String
  name : Option String
  file : Option String
  startLine : Option Nat
deriving DecidableEq, Repr

/-- Union of the metadata fields the orchestrator's handlers produce;
absent fields embed absent object keys. -/
structure Metadata where
  error : Option String := none
  warning : Option String := none
  functionId : Option String := none
  depth : Option Nat := none
  affectedCount : Option Nat := none
  count : Option Nat := none
  dependencies : Option (List String) := none
  callers : Option (List String) := none
  centralFunctions : Option (List CentralityEntry) := none
  importantFiles : Option (List ImportanceEntry) := none
  functionDetails : Option (List FuncDetailEntry) := none
deriving DecidableEq, Repr

/-- QueryResult record of the orchestrator; optional fields embed keys the
handlers may leave out. -/
structure QueryResult where
  intent : String
  files : List String
  functions : Option (List String) := none
  contextPreview : Option String := none
  metadata : Option Metadata := none
deriving DecidableEq, Repr

/-- Availability and call outcomes of the external Gemini collaborator:
`enabled` embeds `geminiClient && geminiClient.isEnabled()`; the outcome
fields give what `explainResult` and `answerCodebaseQuestion` return when
invoked (the client catches its own errors and returns null, embedded as
`none`). -/
structure LlmEnv where
  enabled : Bool
  explainOutcome : Option String
  answerOutcome : Option String
deriving DecidableEq, Repr

/-- JavaScript truthiness filter on an optional string: undefined and the
empty string are dropped. -/
def truthy (o : Option String) : Option String :=
  match o with
  | some s => if s = "" then none else some s
  | none => none

/-- Last path component as Node's `path.basename`: trailing slashes are
dropped, then everything before the final slash. -/
def basename (s : String) : String :=
  let cs := s.data
  let trimmed := (cs.reverse.dropWhile (fun c => c = '/')).reverse
  if trimmed = [] then (if cs = [] then "" else "/")
  else ⟨(trimmed.reverse.takeWhile (fun c => c ≠ '/')).reverse⟩

/-- File nodes whose path ends with the base name of the target, as
handleDependencies selects them (File nodes are built with `data.path`
present; an absent path is embedded as the empty string). -/
def matchingFiles (g : KnowledgeGraph) (target : String) : List Node :=
  (getNodesByType g .File).filter
    (fun n => (n.data.path.getD "").endsWith (basename target))

/-- QueryOrchestrator.handleDependencies: outgoing IMPORTS edges of the
first file whose path ends with the target's base name. -/
def handleDependencies (g : KnowledgeGraph) (target : String) : QueryResult :=
  let fileName := basename target
  match matchingFiles g target with
  | [] =>
    { intent := "DEPENDENCIES", files := []
      metadata := some { error := some ("File \"" ++ target ++ "\" not found") } }
  | f :: _ =>
    let imports := (getOutgoingEdges g f.id).filter (fun e => e.type = .IMPORTS)
    let dependencies := imports.filterMap
      (fun e => truthy ((getNode g e.target).bind (fun n => n.data.path)))
    { intent := "DEPENDENCIES", files := [f.data.path.getD ""]
      contextPreview := some ("Dependencies of " ++ fileName ++ ":\n" ++
        String.intercalate "\n" (dependencies.map (fun d => "- " ++ basename d)))
      metadata := some { count := some dependencies.length
                         dependencies := some dependencies } }

/-- QueryOrchestrator.handleUsage: incoming CALLS edges of the first
function node named `target` (function nodes are built with `data.file`
present; an absent file is embedded as the empty string). -/
def handleUsage (g : KnowledgeGraph) (target : String) : QueryResult :=
  match (getNodesByType g .Function).filter (fun n => n.data.name = some target) with
  | [] =>
    { intent := "USAGE", files := []
      metadata := some { error := some ("Function \"" ++ target ++ "\" not found") } }
  | f :: _ =>
    let callers := (getIncomingEdges g f.id).filter (fun e => e.type = .CALLS)
    let callingFunctions := callers.filterMap
      (fun e => truthy ((getNode g e.source).bind (fun n => n.data.name)))
    { intent := "USAGE", files := [f.data.file.getD ""]
      functions := some [f.id]
      contextPreview := some ("Function " ++ target ++ " is called by:\n" ++
        String.intercalate "\n" (callingFunctions.map (fun c => "- " ++ c)))
      metadata := some { count := some callingFunctions.length
                         callers := some callingFunctions } }

/-- QueryOrchestrator.handleHistory: placeholder result. -/
def handleHistory (target : String) : QueryResult :=
  { intent := "HISTORY", files := []
    contextPreview := some ("History analysis for " ++ target ++
      " requires Historian agent data integration.")
    metadata := some { warning := some "Not fully implemented yet" } }

/-- QueryOrchestrator.handleRisks: placeholder result. -/
def handleRisks (target : String) : QueryResult :=
  { intent := "RISKS", files := []
    contextPreview := some ("Risk analysis for " ++ target ++
      " requires RiskAssessor agent data integration.")
    metadata := some { warning := some "Not fully implemented yet" } }

/-- QueryOrchestrator.handleBlastRadius: blast radius of the first function
matching the planned name; an absent name or unknown function yields an
empty result with a metadata error. -/
def handleBlastRadius (g : KnowledgeGraph) (plan : QueryPlan) : QueryResult :=
  match plan.functionName with
  | none =>
    { intent := "blast_radius", files := [], functions := some []
      metadata := some { error := some "Function name not found in question" } }
  | some name =>
    match findFunctionByName g name with
    | [] =>
      { intent := "blast_radius", files := [], functions := some []
        metadata := some { error := some ("Function \"" ++ name ++ "\" not found") } }
    | f :: _ =>
      let blastRadius := functionBlastRadius g f.id
      { intent := "blast_radius", files := blastRadius.affectedFiles
        functions := some blastRadius.affectedFunctions
        metadata := some { functionId := some f.id
                           depth := some blastRadius.depth
                           affectedCount := some blastRadius.affectedFunctions.length } }

/-- QueryOrchestrator.handleCentralFunctions: the top twenty functions by
centrality with their defining files. -/
def handleCentralFunctions (g : KnowledgeGraph) : QueryResult :=
  let topFunctions := (functionCentrality g).take 20
  let files := dedupFirst (topFunctions.filterMap
    (fun f => truthy ((getNode g f.functionId).bind (fun n => n.data.file))))
  { intent := "central_functions", files := files
    functions := some (topFunctions.map (fun f => f.functionId))
    metadata := some { centralFunctions := some topFunctions } }

/-- QueryOrchestrator.handleImportantFiles: the top ten files by importance. -/
def handleImportantFiles (g : KnowledgeGraph) : QueryResult :=
  let topFiles := (fileImportance g).take 10
  { intent := "important_files", files := topFiles.map (fun f => f.fileId)
    metadata := some { importantFiles := some topFiles } }

/-- QueryOrchestrator.handleFindFunction: all functions with the planned
name and their defining files. -/
def handleFindFunction (g : KnowledgeGraph) (plan : QueryPlan) : QueryResult :=
  match plan.functionName with
  | none => { intent := "find_function", files := [], functions := some [] }
  | some name =>
    let functions := findFunctionByName g name
    let files := dedupFirst (functions.filterMap (fun f => truthy f.data.file))
    { intent := "find_function", files := files
      functions := some (functions.map (fun f => f.id))
      metadata := some { functionDetails := some (functions.map (fun f =>
        ⟨f.id, f.data.name, f.data.file, f.data.startLine⟩)) } }

/-- QueryOrchestrator.handleGeneralQuery: without the Gemini collaborator
the result is an empty `unknown` answer; with it, the important and first
files of the graph are selected and the collaborator's answer (or a fixed
failure text) becomes the preview.  The `workspace` argument embeds the
optional open workspace folder. -/
def handleGeneralQuery (g : KnowledgeGraph) (env : LlmEnv)
    (workspace : Option String) : QueryResult :=
  if env.enabled then
    match workspace with
    | none =>
      { intent := "general_query", files := [], functions := some []
        contextPreview := some "No workspace folder found." }
    | some _ =>
      let allFiles := (getNodesByType g .File).map (fun n => n.data.path.getD "")
      let importantFiles := ((fileImportance g).take 15).map (fun f => f.fileId)
      let filesToRead := (dedupFirst (importantFiles ++ allFiles.take 20)).take 20
      { intent := "general_query", files := filesToRead
        contextPreview :=
          some (env.answerOutcome.getD "Failed to get answer from Gemini API.") }
  else
    { intent := "unknown", files := [], functions := some []
      contextPreview :=
        some "Gemini API is not enabled. Please configure your API key in settings." }

/-- Step 3 of runQuery: when the collaborator is enabled and the intent is
not `general_query`, a successful explanation overwrites `contextPreview`
and nothing else; a failed one changes nothing. -/
def applyEnrichment (env : LlmEnv) (r : QueryResult) : QueryResult :=
  if env.enabled && !(r.intent == "general_query") then
    match env.explainOutcome with
    | some e => { r with contextPreview := some e }
    | none => r
  else r

/-- QueryOrchestrator.runQuery: deterministic parser first (its four handled
intents return directly, skipping enrichment; EXPLAIN falls through), then
the planner dispatches to a graph query or the general fallback, and the
result of the planner path is enriched. -/
def runQuery (g : KnowledgeGraph) (planner : String → QueryPlan)
    (env : LlmEnv) (workspace : Option String) (question : String) :
    QueryResult :=
  let routed : Option QueryResult :=
    match parse question with
    | some p =>
      if p.intent = "DEPENDENCIES" then some (handleDependencies g p.target)
      else if p.intent = "USAGE" then some (handleUsage g p.target)
      else if p.intent = "HISTORY" then some (handleHistory p.target)
      else if p.intent = "RISKS" then some (handleRisks p.target)
      else none
    | none => none
  match routed with
  | some r => r
  | none =>
    let plan := planner question
    let result :=
      match plan.intent with
      | .blast_radius => handleBlastRadius g plan
      | .central_functions => handleCentralFunctions g
      | .important_files => handleImportantFiles g
      | .find_function => handleFindFunction g plan
      | .unknown => handleGeneralQuery g env workspace
    applyEnrichment env result

/-- Extraction result for one function-like unit, as fed to the graph-build
step (extension.ts `buildKnowledgeGraph`). -/
structure ExtractedFunction where
  id : String
  name : String
  file : String
  startLine : Nat
  calls : List String
deriving DecidableEq, Repr

/-- Function node holding the whole extraction record as its data. -/
def funcNode (f : ExtractedFunction) : Node :=
  ⟨f.id, .Function, ⟨none, some f.name, some f.file, some f.startLine, f.calls⟩⟩

/-- Call-resolution predicate of `buildKnowledgeGraph`:
`f.data.name === call || f.id.includes("::" + call)`. -/
def matchesCall (call : String) (n : Node) : Bool :=
  n.data.name == some call || decide (("::" ++ call).data <:+: n.id.data)

/-- First Function node, in insertion order, matching the call name. -/
def resolveCall (g : KnowledgeGraph) (call : String) : Option Node :=
  ((getNodesByType g .Function).filter (matchesCall call)).head?

/-- The call loop of `buildKnowledgeGraph`: for each extracted call name,
link to the first matching function node, or silently drop the call. -/
def addCallEdges (g : KnowledgeGraph) (fid : String) (calls : List String) :
    KnowledgeGraph :=
  calls.foldl (fun g call =>
    match resolveCall g call with
    | some n => addEdge g ⟨fid, n.id, .CALLS⟩
    | none => g) g

/-- Graph-build step for one extracted function (extension.ts): add the
function node, the DEFINES edge from its file, and the resolved CALLS
edges. -/
def processFunction (g : KnowledgeGraph) (file : String)
    (f : ExtractedFunction) : KnowledgeGraph :=
  let g1 := addNode g (funcNode f)
  let g2 := addEdge g1 ⟨file, f.id, .DEFINES⟩
  addCallEdges g2 f.id f.calls

/-- Does the parser route the question to one of its four directly handled
intents (EXPLAIN falls through to the planner)? -/
def parserHandled (q : String) : Bool :=
  match parse q with
  | some p => p.intent == "DEPENDENCIES" || p.intent == "USAGE" ||
      p.intent == "HISTORY" || p.intent == "RISKS"
  | none => false

/-- Does the question reach the general fallback handler, the one path that
is allowed to depend on the explanation collaborator? -/
def routesToFallback (planner : String → QueryPlan) (q : String) : Bool :=
  !parserHandled q && (planner q).intent == .unknown

/-- Test fixture: functions A, B, C with CALLS edges A to B and B to C. -/
def chainGraph : KnowledgeGraph :=
  { nodes := [⟨"A", .Function, {name := some "A", file := some "a.ts"}⟩,
              ⟨"B", .Function, {name := some "B", file := some "b.ts"}⟩,
              ⟨"C", .Function, {name := some "C", file := some "c.ts"}⟩]
    edges := [⟨"A", "B", .CALLS⟩, ⟨"B", "C", .CALLS⟩] }

/-- Test fixture: the chain graph closed into a CALLS cycle. -/
def cycleGraph : KnowledgeGraph :=
  { chainGraph with
    edges := [⟨"A", "B", .CALLS⟩, ⟨"B", "C", .CALLS⟩, ⟨"C", "A", .CALLS⟩] }

/-- Test fixture: a graph holding one File node. -/
def oneFileGraph : KnowledgeGraph :=
  { nodes := [⟨"a.ts", .File, {path := some "a.ts"}⟩] }

/-- Test fixture: a planner that classifies nothing. -/
def plannerUnknown : String → QueryPlan := fun _ => ⟨.unknown, none⟩

/-- Test fixture: a planner that always plans a blast radius for a name
absent from the graphs of the tests. -/
def plannerBlast : String → QueryPlan := fun _ => ⟨.blast_radius, some "nope"⟩

/-- Test fixture: collaborator unavailable. -/
def envOff : LlmEnv := ⟨false, none, none⟩

/-- Test fixture: collaborator available and succeeding. -/
def envOn : LlmEnv := ⟨true, some "an explanation", some "an answer"⟩

/-- Test fixture: dependency cycle A to B to C back to A. -/
def cyclicDeps : List Dependency := [⟨"A", "B"⟩, ⟨"B", "C"⟩, ⟨"C", "A"⟩]

/-- Test fixture: acyclic dependencies A to B to C. -/
def acyclicDeps : List Dependency := [⟨"A", "B"⟩, ⟨"B", "C"⟩]

/-! ## Theorems -/

/-- Overwriting every entry of a key present in the list makes the first
find of that key return the new value. -/
theorem find_overwrite {α : Type} (l : List (String × AgentFinding α))
    (a : String) (v : AgentFinding α)
    (h : l.any (fun kv => kv.1 = a) = true) :
    (l.map (fun kv => if kv.1 = a then (kv.1, v) else kv)).find?
      (fun kv => kv.1 = a) = some (a, v) := by
  induction l with
  | nil => simp at h
  | cons kv tl ih =>
    by_cases hk : kv.1 = a
    · simp [hk]
    · have h' : tl.any (fun kv => kv.1 = a) = true := by
        simpa [hk] using h
      simpa [hk] using ih h'

/-- Appending an entry of an absent key makes the first find of that key
return the appended value. -/
theorem find_append_new {α : Type} (l : List (String × AgentFinding α))
    (a : String) (v : AgentFinding α)
    (h : l.any (fun kv => kv.1 = a) = false) :
    (l ++ [(a, v)]).find? (fun kv => kv.1 = a) = some (a, v) := by
  induction l with
  | nil => simp
  | cons kv tl ih =>
    by_cases hk : kv.1 = a
    · simp [hk] at h
    · have h' : tl.any (fun kv => kv.1 = a) = false := by
        simpa [hk] using h
      simpa [hk] using ih h'

/-- Helper for C9: one store followed by a get of the same agent name
returns exactly the stored payload. -/
theorem get_store_same {α : Type} (kb : KnowledgeBase α) (a : String)
    (d : α) (now : Nat) :
    (kb.store a d now).get a = some d := by
  unfold KnowledgeBase.store KnowledgeBase.get
  by_cases h : kb.storage.any (fun kv => kv.1 = a) = true
  · rw [if_pos h]
    show ((kb.storage.map _).find? _).map _ = _
    rw [find_overwrite kb.storage a ⟨a, now, d⟩ h]
    rfl
  · rw [Bool.not_eq_true] at h
    rw [if_neg (by simp [h])]
    show ((kb.storage ++ _).find? _).map _ = _
    rw [find_append_new kb.storage a ⟨a, now, d⟩ h]
    rfl

/-- C9: KnowledgeBase findings are keyed by collaborator name with
last-write-wins semantics — after storing d₁ then d₂ under the same agent
name, `get` returns d₂, and after a single store of d, `get` returns d. -/
theorem c9_knowledge_base_last_write_wins {α : Type} (kb : KnowledgeBase α)
    (a : String) (d₁ d₂ d : α) (t₁ t₂ now : Nat) :
    ((kb.store a d₁ t₁).store a d₂ t₂).get a = some d₂ ∧
      (kb.store a d now).get a = some d :=
  ⟨get_store_same _ a d₂ t₂, get_store_same kb a d now⟩

/-- C5: findCycles on the dependency list A to B, B to C, C to A returns a
cycle whose sequence of ids is exactly A, B, C, A. -/
theorem c5_find_cycles_reports_triangle :
    ["A", "B", "C", "A"] ∈ findCycles cyclicDeps := by decide

/-- C2 counterexample: on the chain graph (A calls B calls C) the
incoming-direction blast radius of A is empty, not B then C as the claim
expects. -/
theorem c2_counterexample :
    ¬((functionBlastRadius chainGraph "A").affectedFunctions = ["B", "C"] ∧
      (functionBlastRadius chainGraph "A").depth = 2) := by decide

/-- C2 amended: the incoming-direction breadth-first traversal reaches B
then A when started from C on the chain graph (who depends on C,
transitively), with depth 2; started from A it finds nothing. -/
theorem c2_blast_radius_chain_amended :
    functionBlastRadius chainGraph "C" =
      ⟨["B", "A"], ["b.ts", "a.ts"], 2⟩ ∧
    functionBlastRadius chainGraph "A" = ⟨[], [], 0⟩ := by decide

/-- C4 counterexample: the parser lower-cases the question before matching,
so the target extracted from "who calls computeTotal" is "computetotal",
not "computeTotal". -/
theorem c4_counterexample :
    (parse "who calls computeTotal").map ParsedQuery.target ≠
      some "computeTotal" := by decide

/-- C4 amended: parse yields DEPENDENCIES with target foo.ts, USAGE with
the lower-cased target computetotal, and no parse for "hello world". -/
theorem c4_parse_examples_amended :
    parse "dependencies of foo.ts" = some ⟨"DEPENDENCIES", "foo.ts", 9 / 10⟩ ∧
    parse "who calls computeTotal" = some ⟨"USAGE", "computetotal", 9 / 10⟩ ∧
    parse "hello world" = none :=
  ⟨rfl, rfl, rfl⟩

/-- Adding an edge does not change call resolution, which only reads
nodes. -/
theorem resolveCall_addEdge (g : KnowledgeGraph) (e : Edge) (c : String) :
    resolveCall (addEdge g e) c = resolveCall g c := rfl

/-- The call loop appends exactly one CALLS edge per resolvable call, in
call order, and drops the rest. -/
theorem addCallEdges_eq (calls : List String) (g : KnowledgeGraph)
    (fid : String) :
    addCallEdges g fid calls =
      { g with edges := g.edges ++ calls.filterMap (fun c =>
          (resolveCall g c).map (fun n => ⟨fid, n.id, .CALLS⟩)) } := by
  induction calls generalizing g with
  | nil => simp [addCallEdges]
  | cons c cs ih =>
    have step : addCallEdges g fid (c :: cs) =
        addCallEdges (match resolveCall g c with
          | some n => addEdge g ⟨fid, n.id, .CALLS⟩
          | none => g) fid cs := rfl
    rw [step]
    cases hc : resolveCall g c with
    | none => simp [ih g, List.filterMap_cons, hc]
    | some n =>
      rw [ih (addEdge g ⟨fid, n.id, .CALLS⟩)]
      simp only [resolveCall_addEdge]
      simp [addEdge, List.filterMap_cons, hc, List.append_assoc]

/-- The nodes field is not touched by addEdge, and addNode does not touch
edges. -/
theorem addNode_edges (g : KnowledgeGraph) (n : Node) :
    (addNode g n).edges = g.edges := by
  unfold addNode; split <;> rfl

/-- C7: during graph build, each extracted call name adds exactly one CALLS
edge to the first-inserted Function node matching it by `data.name` or by
the id-suffix fallback, resolved against the graph already holding the
function's own node; unmatched calls add no edge; besides those only the
function node and its DEFINES edge are added. -/
theorem c7_call_resolution (g : KnowledgeGraph) (file : String)
    (f : ExtractedFunction) :
    processFunction g file f =
      { nodes := (addNode g (funcNode f)).nodes
        edges := g.edges ++ ⟨file, f.id, .DEFINES⟩ ::
          f.calls.filterMap (fun call =>
            (resolveCall (addNode g (funcNode f)) call).map
              (fun n => ⟨f.id, n.id, EdgeType.CALLS⟩)) } := by
  show addCallEdges (addEdge (addNode g (funcNode f)) ⟨file, f.id, .DEFINES⟩)
      f.id f.calls = _
  rw [addCallEdges_eq]
  simp only [resolveCall_addEdge]
  simp [addEdge, addNode_edges]

/-- Every remaining input of a greedy-repetition split is a suffix of the
input. -/
theorem greedySplits_suffix (input : List Char) :
    ∀ (k : Nat) (sr : List Char × List Char), sr ∈ greedySplits input k →
      sr.2 <:+ input := by
  intro k
  induction k with
  | zero => intro sr h; simp [greedySplits] at h
  | succ k ih =>
    intro sr h
    rcases (List.mem_cons).1 h with h | h
    · subst h; exact List.drop_suffix _ _
    · exact ih sr h

/-- Valid code points round-trip through Char.ofNat. -/
theorem char_toNat_ofNat_valid (n : Nat) (h : n.isValidChar) :
    (Char.ofNat n).toNat = n := by
  unfold Char.ofNat
  rw [dif_pos h]
  rfl

/-- ASCII lower-casing never produces an ASCII capital letter. -/
theorem toLowerChar_not_upper (c : Char) :
    ¬(65 ≤ (toLowerChar c).toNat ∧ (toLowerChar c).toNat ≤ 90) := by
  unfold toLowerChar
  split
  · next h =>
    have hv : (c.toNat + 32).isValidChar := Or.inl (by omega)
    rw [char_toNat_ofNat_valid _ hv]
    omega
  · next h => omega

/-- Trimming only removes characters. -/
theorem mem_trimChars {c : Char} {l : List Char} (h : c ∈ trimChars l) :
    c ∈ l := by
  unfold trimChars at h
  rw [List.mem_reverse] at h
  have h1 : c ∈ (l.dropWhile wsChar).reverse :=
    (List.dropWhile_suffix _).subset h
  rw [List.mem_reverse] at h1
  exact (List.dropWhile_suffix _).subset h1

/-- Characters of the normalized question are never ASCII capitals. -/
theorem mem_normalize_not_upper (q : String) :
    ∀ c ∈ normalize q, ¬(65 ≤ c.toNat ∧ c.toNat ≤ 90) := by
  intro c hc
  obtain ⟨c₀, _, rfl⟩ := List.mem_map.1 (mem_trimChars hc)
  exact toLowerChar_not_upper c₀

/-- Soundness of the matcher: every outcome leaves a suffix of the input,
and every capture is a contiguous piece of the input. -/
theorem mtch_spec (re : Re) :
    ∀ (input : List Char) (o : Option (List Char) × List Char),
      o ∈ mtch re input →
        o.2 <:+ input ∧ ∀ l, o.1 = some l → l <:+: input := by
  induction re with
  | lit s =>
    intro input o h
    unfold mtch at h
    split at h
    · rcases (List.mem_singleton).1 h with rfl
      exact ⟨List.drop_suffix _ _, by intro l hl; cases hl⟩
    · cases h
  | plus p =>
    intro input o h
    unfold mtch at h
    obtain ⟨sr, hsr, rfl⟩ := List.mem_map.1 h
    exact ⟨greedySplits_suffix input _ sr hsr, by intro l hl; cases hl⟩
  | cat a b iha ihb =>
    intro input o h
    unfold mtch at h
    obtain ⟨o₁, h₁, ho⟩ := List.mem_flatMap.1 h
    obtain ⟨o₂, h₂, rfl⟩ := List.mem_map.1 ho
    have s₁ := iha input o₁ h₁
    have s₂ := ihb o₁.2 o₂ h₂
    refine ⟨s₂.1.trans s₁.1, ?_⟩
    intro l hl
    cases ho₁ : o₁.1 with
    | some l₁ =>
      rw [ho₁] at hl
      simp only [Option.some_orElse] at hl
      injection hl with hl
      subst hl
      exact s₁.2 _ ho₁
    | none =>
      rw [ho₁] at hl
      simp only [Option.none_orElse] at hl
      exact (s₂.2 l hl).trans s₁.1.isInfix
  | alt a b iha ihb =>
    intro input o h
    unfold mtch at h
    rcases List.mem_append.1 h with h | h
    · exact iha input o h
    · exact ihb input o h
  | opt a iha =>
    intro input o h
    unfold mtch at h
    rcases List.mem_append.1 h with h | h
    · exact iha input o h
    · rcases (List.mem_singleton).1 h with rfl
      exact ⟨List.suffix_refl input, by intro l hl; cases hl⟩
  | grp a iha =>
    intro input o h
    unfold mtch at h
    obtain ⟨o', h', rfl⟩ := List.mem_map.1 h
    refine ⟨(iha input o' h').1, ?_⟩
    intro l hl
    cases hl
    exact (List.take_prefix _ _).isInfix

/-- Soundness of the single-position match: the capture is a contiguous
piece of the input. -/
theorem searchHere_infix (re : Re) (input cap : List Char)
    (h : searchHere re input = some cap) : cap <:+: input := by
  unfold searchHere at h
  cases hm : mtch re input with
  | nil => rw [hm] at h; cases h
  | cons o t =>
    rw [hm] at h
    injection h with h
    have h' : o.1.getD [] = cap := h
    have hmem : o ∈ mtch re input := hm ▸ List.mem_cons_self o t
    cases ho : o.1 with
    | some l =>
      rw [ho] at h'
      simp only [Option.getD_some] at h'
      subst h'
      exact (mtch_spec re input o hmem).2 l ho
    | none =>
      rw [ho] at h'
      simp only [Option.getD_none] at h'
      subst h'
      exact List.nil_infix

/-- Soundness of the leftmost search: the returned capture is a contiguous
piece of the input. -/
theorem searchCapture_infix (re : Re) :
    ∀ (input cap : List Char), searchCapture re input = some cap →
      cap <:+: input := by
  intro input
  induction input with
  | nil =>
    intro cap h
    exact searchHere_infix re [] cap h
  | cons c rest ih =>
    intro cap h
    unfold searchCapture at h
    cases hs : searchHere re (c :: rest) with
    | some cap' =>
      rw [hs] at h
      injection h with h
      subst h
      exact searchHere_infix re _ _ hs
    | none =>
      rw [hs] at h
      exact (ih cap h).trans (List.suffix_cons c rest).isInfix

/-- Splitting a fallback match: one of the two regexes produced the
capture. -/
theorem orElse_cases {a b : Option (List Char)} {x : List Char}
    (h : (a.orElse fun _ => b) = some x) : a = some x ∨ b = some x := by
  cases a with
  | some y => left; simpa using h
  | none => right; simpa using h

/-- C10: whenever QueryParser.parse returns a parsed query, its confidence
is exactly 0.9 and its target contains no ASCII capital letter, the
question having been lower-cased and trimmed before any pattern is tried. -/
theorem c10_parse_lowercase_confidence (q : String) (r : ParsedQuery)
    (h : parse q = some r) :
    r.confidence = 9 / 10 ∧
      ∀ c ∈ r.target.data, ¬(65 ≤ c.toNat ∧ c.toNat ≤ 90) := by
  have step : ∀ (cap : List Char), cap <:+: normalize q →
      ∀ c ∈ (String.mk cap).data, ¬(65 ≤ c.toNat ∧ c.toNat ≤ 90) := by
    intro cap hcap c hc
    exact mem_normalize_not_upper q c (hcap.subset hc)
  have capOf : ∀ {re : Re} {cap : List Char},
      searchCapture re (normalize q) = some cap → cap <:+: normalize q :=
    fun {re cap} h => searchCapture_infix re (normalize q) cap h
  simp only [parse] at h
  rcases h1 : (searchCapture depRe1 (normalize q)).orElse
      (fun _ => searchCapture depRe2 (normalize q)) with _ | cap
  case some =>
    rw [h1] at h
    cases h
    refine ⟨rfl, step cap ?_⟩
    rcases orElse_cases h1 with h2 | h2
    · exact capOf h2
    · exact capOf h2
  case none =>
  rw [h1] at h
  rcases h2 : (searchCapture usageRe1 (normalize q)).orElse
      (fun _ => searchCapture usageRe2 (normalize q)) with _ | cap
  case some =>
    rw [h2] at h
    cases h
    refine ⟨rfl, step cap ?_⟩
    rcases orElse_cases h2 with h3 | h3
    · exact capOf h3
    · exact capOf h3
  case none =>
  rw [h2] at h
  rcases h3 : (searchCapture histRe1 (normalize q)).orElse
      (fun _ => searchCapture histRe2 (normalize q)) with _ | cap
  case some =>
    rw [h3] at h
    cases h
    refine ⟨rfl, step cap ?_⟩
    rcases orElse_cases h3 with h4 | h4
    · exact capOf h4
    · exact capOf h4
  case none =>
  rw [h3] at h
  rcases h4 : searchCapture riskRe (normalize q) with _ | cap
  case some =>
    rw [h4] at h
    cases h
    exact ⟨rfl, step cap (capOf h4)⟩
  case none =>
  rw [h4] at h
  rcases h5 : searchCapture explainRe (normalize q) with _ | cap
  case some =>
    rw [h5] at h
    cases h
    exact ⟨rfl, step cap (capOf h5)⟩
  case none =>
    rw [h5] at h
    cases h

/-- Witness for C10 at the concrete question "dependencies of foo.ts". -/
theorem c10_parse_lowercase_confidence_witness :
    (⟨"DEPENDENCIES", "foo.ts", 9 / 10⟩ : ParsedQuery).confidence = 9 / 10 ∧
      ∀ c ∈ (⟨"DEPENDENCIES", "foo.ts", 9 / 10⟩ : ParsedQuery).target.data,
        ¬(65 ≤ c.toNat ∧ c.toNat ≤ 90) :=
  c10_parse_lowercase_confidence "dependencies of foo.ts" _ rfl

/-- Enrichment changes at most the context preview: files, functions and
metadata of a result survive `applyEnrichment` unchanged. -/
theorem applyEnrichment_fields (env : LlmEnv) (r : QueryResult) :
    (applyEnrichment env r).files = r.files ∧
    (applyEnrichment env r).functions = r.functions ∧
    (applyEnrichment env r).metadata = r.metadata := by
  unfold applyEnrichment
  split
  · cases env.explainOutcome <;> simp
  · simp

/-- C1 counterexample: on a graph with one File node and an unclassifiable
question, the general fallback returns no files without the collaborator
but the graph's files with it, so the result is not independent of the
collaborator's availability. -/
theorem c1_counterexample :
    ¬((runQuery oneFileGraph plannerUnknown envOff (some "/w") "hello world").files =
        (runQuery oneFileGraph plannerUnknown envOn (some "/w") "hello world").files ∧
      (runQuery oneFileGraph plannerUnknown envOff (some "/w") "hello world").functions =
        (runQuery oneFileGraph plannerUnknown envOn (some "/w") "hello world").functions ∧
      (runQuery oneFileGraph plannerUnknown envOff (some "/w") "hello world").metadata =
        (runQuery oneFileGraph plannerUnknown envOn (some "/w") "hello world").metadata) := by
  decide

/-- C1 amended: for every question that does not reach the general fallback
handler, runQuery returns the same files, functions and metadata whatever
the explanation collaborator does — available, failing or succeeding — and
the enrichment step can only set contextPreview. -/
theorem c1_enrichment_additive_amended (g : KnowledgeGraph)
    (planner : String → QueryPlan) (ws : Option String) (q : String)
    (env₁ env₂ : LlmEnv) (h : routesToFallback planner q = false) :
    (runQuery g planner env₁ ws q).files = (runQuery g planner env₂ ws q).files ∧
    (runQuery g planner env₁ ws q).functions =
      (runQuery g planner env₂ ws q).functions ∧
    (runQuery g planner env₁ ws q).metadata =
      (runQuery g planner env₂ ws q).metadata := by
  unfold routesToFallback parserHandled at h
  unfold runQuery
  cases hp : parse q with
  | some p =>
    rw [hp] at h
    simp only [hp]
    by_cases h1 : p.intent = "DEPENDENCIES"
    · simp [h1]
    by_cases h2 : p.intent = "USAGE"
    · simp [h1, h2]
    by_cases h3 : p.intent = "HISTORY"
    · simp [h1, h2, h3]
    by_cases h4 : p.intent = "RISKS"
    · simp [h1, h2, h3, h4]
    simp only [if_neg h1, if_neg h2, if_neg h3, if_neg h4]
    have hB : (planner q).intent ≠ PlanIntent.unknown := by
      intro hc
      simp [h1, h2, h3, h4, hc] at h
    cases hplan : planner q with
    | mk intent fname =>
      rw [hplan] at hB
      simp only [hplan]
      cases intent with
      | unknown => exact absurd rfl hB
      | blast_radius =>
        exact ⟨((applyEnrichment_fields env₁ _).1).trans
            ((applyEnrichment_fields env₂ _).1).symm,
          ((applyEnrichment_fields env₁ _).2.1).trans
            ((applyEnrichment_fields env₂ _).2.1).symm,
          ((applyEnrichment_fields env₁ _).2.2).trans
            ((applyEnrichment_fields env₂ _).2.2).symm⟩
      | central_functions =>
        exact ⟨((applyEnrichment_fields env₁ _).1).trans
            ((applyEnrichment_fields env₂ _).1).symm,
          ((applyEnrichment_fields env₁ _).2.1).trans
            ((applyEnrichment_fields env₂ _).2.1).symm,
          ((applyEnrichment_fields env₁ _).2.2).trans
            ((applyEnrichment_fields env₂ _).2.2).symm⟩
      | important_files =>
        exact ⟨((applyEnrichment_fields env₁ _).1).trans
            ((applyEnrichment_fields env₂ _).1).symm,
          ((applyEnrichment_fields env₁ _).2.1).trans
            ((applyEnrichment_fields env₂ _).2.1).symm,
          ((applyEnrichment_fields env₁ _).2.2).trans
            ((applyEnrichment_fields env₂ _).2.2).symm⟩
      | find_function =>
        exact ⟨((applyEnrichment_fields env₁ _).1).trans
            ((applyEnrichment_fields env₂ _).1).symm,
          ((applyEnrichment_fields env₁ _).2.1).trans
            ((applyEnrichment_fields env₂ _).2.1).symm,
          ((applyEnrichment_fields env₁ _).2.2).trans
            ((applyEnrichment_fields env₂ _).2.2).symm⟩
  | none =>
    rw [hp] at h
    simp only [hp]
    have hB : (planner q).intent ≠ PlanIntent.unknown := by
      intro hc
      simp [hc] at h
    cases hplan : planner q with
    | mk intent fname =>
      rw [hplan] at hB
      simp only [hplan]
      cases intent with
      | unknown => exact absurd rfl hB
      | blast_radius =>
        exact ⟨((applyEnrichment_fields env₁ _).1).trans
            ((applyEnrichment_fields env₂ _).1).symm,
          ((applyEnrichment_fields env₁ _).2.1).trans
            ((applyEnrichment_fields env₂ _).2.1).symm,
          ((applyEnrichment_fields env₁ _).2.2).trans
            ((applyEnrichment_fields env₂ _).2.2).symm⟩
      | central_functions =>
        exact ⟨((applyEnrichment_fields env₁ _).1).trans
            ((applyEnrichment_fields env₂ _).1).symm,
          ((applyEnrichment_fields env₁ _).2.1).trans
            ((applyEnrichment_fields env₂ _).2.1).symm,
          ((applyEnrichment_fields env₁ _).2.2).trans
            ((applyEnrichment_fields env₂ _).2.2).symm⟩
      | important_files =>
        exact ⟨((applyEnrichment_fields env₁ _).1).trans
            ((applyEnrichment_fields env₂ _).1).symm,
          ((applyEnrichment_fields env₁ _).2.1).trans
            ((applyEnrichment_fields env₂ _).2.1).symm,
          ((applyEnrichment_fields env₁ _).2.2).trans
            ((applyEnrichment_fields env₂ _).2.2).symm⟩
      | find_function =>
        exact ⟨((applyEnrichment_fields env₁ _).1).trans
            ((applyEnrichment_fields env₂ _).1).symm,
          ((applyEnrichment_fields env₁ _).2.1).trans
            ((applyEnrichment_fields env₂ _).2.1).symm,
          ((applyEnrichment_fields env₁ _).2.2).trans
            ((applyEnrichment_fields env₂ _).2.2).symm⟩

/-- Witness for C1 on the one-file graph with a planner that maps every
question to the centrality query. -/
theorem c1_enrichment_additive_amended_witness :
    (runQuery oneFileGraph (fun _ => ⟨.central_functions, none⟩) envOff
        (some "/w") "hello world").files =
      (runQuery oneFileGraph (fun _ => ⟨.central_functions, none⟩) envOn
        (some "/w") "hello world").files ∧
    (runQuery oneFileGraph (fun _ => ⟨.central_functions, none⟩) envOff
        (some "/w") "hello world").functions =
      (runQuery oneFileGraph (fun _ => ⟨.central_functions, none⟩) envOn
        (some "/w") "hello world").functions ∧
    (runQuery oneFileGraph (fun _ => ⟨.central_functions, none⟩) envOff
        (some "/w") "hello world").metadata =
      (runQuery oneFileGraph (fun _ => ⟨.central_functions, none⟩) envOn
        (some "/w") "hello world").metadata :=
  c1_enrichment_additive_amended oneFileGraph
    (fun _ => ⟨.central_functions, none⟩) (some "/w") "hello world"
    envOff envOn (by decide)

/-- C8 counterexample: on the empty graph, a question planned as a
find_function for an absent name degrades to an empty result, but its
metadata carries an empty detail list and no error string, so not every
not-found query yields a descriptive metadata error. -/
theorem c8_counterexample :
    findFunctionByName ⟨[], []⟩ "nope" = [] ∧
      (runQuery ⟨[], []⟩ (fun _ => ⟨.find_function, some "nope"⟩) envOff none
        "hello world").files = [] ∧
      (runQuery ⟨[], []⟩ (fun _ => ⟨.find_function, some "nope"⟩) envOff none
        "hello world").functions = some [] ∧
      ((runQuery ⟨[], []⟩ (fun _ => ⟨.find_function, some "nope"⟩) envOff none
        "hello world").metadata.bind (fun m => m.error)) = none := by
  decide

/-- C8 amended: queries naming an absent file or function degrade to
results with no files and no functions, never an exception; the parsed
DEPENDENCIES and USAGE handlers and the planned blast-radius handler add a
descriptive metadata error, while the planned find_function handler
reports an empty detail list without an error string. -/
theorem c8_not_found_degrades_amended (g : KnowledgeGraph)
    (planner : String → QueryPlan) (env : LlmEnv) (ws : Option String)
    (q₁ q₂ q₃ q₄ t n u m : String) (conf confU : ℚ)
    (hA1 : parse q₁ = some ⟨"DEPENDENCIES", t, conf⟩)
    (hA2 : matchingFiles g t = [])
    (hB1 : parse q₂ = none)
    (hB2 : planner q₂ = ⟨.blast_radius, some n⟩)
    (hB3 : findFunctionByName g n = [])
    (hC1 : parse q₃ = some ⟨"USAGE", u, confU⟩)
    (hC2 : (getNodesByType g .Function).filter
      (fun nd => nd.data.name = some u) = [])
    (hD1 : parse q₄ = none)
    (hD2 : planner q₄ = ⟨.find_function, some m⟩)
    (hD3 : findFunctionByName g m = []) :
    ((runQuery g planner env ws q₁).files = [] ∧
      (runQuery g planner env ws q₁).functions.getD [] = [] ∧
      (runQuery g planner env ws q₁).metadata =
        some { error := some ("File \"" ++ t ++ "\" not found") }) ∧
    ((runQuery g planner env ws q₂).files = [] ∧
      (runQuery g planner env ws q₂).functions = some [] ∧
      (runQuery g planner env ws q₂).metadata =
        some { error := some ("Function \"" ++ n ++ "\" not found") }) ∧
    ((runQuery g planner env ws q₃).files = [] ∧
      (runQuery g planner env ws q₃).functions.getD [] = [] ∧
      (runQuery g planner env ws q₃).metadata =
        some { error := some ("Function \"" ++ u ++ "\" not found") }) ∧
    ((runQuery g planner env ws q₄).files = [] ∧
      (runQuery g planner env ws q₄).functions = some [] ∧
      (runQuery g planner env ws q₄).metadata =
        some { functionDetails := some [] }) := by
  refine ⟨?_, ?_, ?_, ?_⟩
  · have hrun : runQuery g planner env ws q₁ = handleDependencies g t := by
      unfold runQuery
      rw [hA1]
      simp
    rw [hrun]
    unfold handleDependencies
    rw [hA2]
    exact ⟨rfl, rfl, rfl⟩
  · have hrun : runQuery g planner env ws q₂ =
        applyEnrichment env (handleBlastRadius g ⟨.blast_radius, some n⟩) := by
      unfold runQuery
      rw [hB1]
      simp only [hB2]
    have hblast : handleBlastRadius g ⟨.blast_radius, some n⟩ =
        { intent := "blast_radius", files := [], functions := some []
          metadata :=
            some { error := some ("Function \"" ++ n ++ "\" not found") } } := by
      simp [handleBlastRadius, hB3]
    have hf := applyEnrichment_fields env
      (handleBlastRadius g ⟨.blast_radius, some n⟩)
    rw [hrun, hf.1, hf.2.1, hf.2.2, hblast]
    exact ⟨rfl, rfl, rfl⟩
  · have hrun : runQuery g planner env ws q₃ = handleUsage g u := by
      unfold runQuery
      rw [hC1]
      simp
    rw [hrun]
    unfold handleUsage
    rw [hC2]
    exact ⟨rfl, rfl, rfl⟩
  · have hrun : runQuery g planner env ws q₄ =
        applyEnrichment env (handleFindFunction g ⟨.find_function, some m⟩) := by
      unfold runQuery
      rw [hD1]
      simp only [hD2]
    have hfind : handleFindFunction g ⟨.find_function, some m⟩ =
        { intent := "find_function", files := [], functions := some []
          metadata := some { functionDetails := some [] } } := by
      simp [handleFindFunction, hD3, dedupFirst]
    have hf := applyEnrichment_fields env
      (handleFindFunction g ⟨.find_function, some m⟩)
    rw [hrun, hf.1, hf.2.1, hf.2.2, hfind]
    exact ⟨rfl, rfl, rfl⟩

/-- Witness for C8 on the empty graph: an unknown file zzz.qq, unknown
functions nope, nosuch and nofn, and a planner splitting the two
unparsed questions between blast_radius and find_function. -/
theorem c8_not_found_degrades_amended_witness :
    ((runQuery ⟨[], []⟩ (fun q => if q = "hello world"
          then ⟨.blast_radius, some "nope"⟩
          else ⟨.find_function, some "nofn"⟩) envOn (some "/w")
        "dependencies of zzz.qq").files = [] ∧
      (runQuery ⟨[], []⟩ (fun q => if q = "hello world"
          then ⟨.blast_radius, some "nope"⟩
          else ⟨.find_function, some "nofn"⟩) envOn (some "/w")
        "dependencies of zzz.qq").functions.getD [] = [] ∧
      (runQuery ⟨[], []⟩ (fun q => if q = "hello world"
          then ⟨.blast_radius, some "nope"⟩
          else ⟨.find_function, some "nofn"⟩) envOn (some "/w")
        "dependencies of zzz.qq").metadata =
        some { error := some ("File \"" ++ "zzz.qq" ++ "\" not found") }) ∧
    ((runQuery ⟨[], []⟩ (fun q => if q = "hello world"
          then ⟨.blast_radius, some "nope"⟩
          else ⟨.find_function, some "nofn"⟩) envOn (some "/w")
        "hello world").files = [] ∧
      (runQuery ⟨[], []⟩ (fun q => if q = "hello world"
          then ⟨.blast_radius, some "nope"⟩
          else ⟨.find_function, some "nofn"⟩) envOn (some "/w")
        "hello world").functions = some [] ∧
      (runQuery ⟨[], []⟩ (fun q => if q = "hello world"
          then ⟨.blast_radius, some "nope"⟩
          else ⟨.find_function, some "nofn"⟩) envOn (some "/w")
        "hello world").metadata =
        some { error := some ("Function \"" ++ "nope" ++ "\" not found") }) ∧
    ((runQuery ⟨[], []⟩ (fun q => if q = "hello world"
          then ⟨.blast_radius, some "nope"⟩
          else ⟨.find_function, some "nofn"⟩) envOn (some "/w")
        "who calls nosuch").files = [] ∧
      (runQuery ⟨[], []⟩ (fun q => if q = "hello world"
          then ⟨.blast_radius, some "nope"⟩
          else ⟨.find_function, some "nofn"⟩) envOn (some "/w")
        "who calls nosuch").functions.getD [] = [] ∧
      (runQuery ⟨[], []⟩ (fun q => if q = "hello world"
          then ⟨.blast_radius, some "nope"⟩
          else ⟨.find_function, some "nofn"⟩) envOn (some "/w")
        "who calls nosuch").metadata =
        some { error := some ("Function \"" ++ "nosuch" ++ "\" not found") }) ∧
    ((runQuery ⟨[], []⟩ (fun q => if q = "hello world"
          then ⟨.blast_radius, some "nope"⟩
          else ⟨.find_function, some "nofn"⟩) envOn (some "/w")
        "xyzzy").files = [] ∧
      (runQuery ⟨[], []⟩ (fun q => if q = "hello world"
          then ⟨.blast_radius, some "nope"⟩
          else ⟨.find_function, some "nofn"⟩) envOn (some "/w")
        "xyzzy").functions = some [] ∧
      (runQuery ⟨[], []⟩ (fun q => if q = "hello world"
          then ⟨.blast_radius, some "nope"⟩
          else ⟨.find_function, some "nofn"⟩) envOn (some "/w")
        "xyzzy").metadata = some { functionDetails := some [] }) :=
  c8_not_found_degrades_amended ⟨[], []⟩
    (fun q => if q = "hello world"
      then ⟨.blast_radius, some "nope"⟩
      else ⟨.find_function, some "nofn"⟩) envOn (some "/w")
    "dependencies of zzz.qq" "hello world" "who calls nosuch" "xyzzy"
    "zzz.qq" "nope" "nosuch" "nofn" (9 / 10) (9 / 10)
    rfl rfl rfl (by decide) rfl rfl rfl rfl (by decide) rfl

/-- Elements gathered by the inner candidate fold of a BFS level either
were already gathered or come from the scanned caller list and avoid the
visited set. -/
theorem bfsInner_mem (visited : List String) :
    ∀ (cs acc : List String) (x : String),
      x ∈ cs.foldl (fun acc c =>
        if visited.contains c || acc.contains c then acc else acc ++ [c]) acc →
      x ∈ acc ∨ (x ∈ cs ∧ x ∉ visited) := by
  intro cs
  induction cs with
  | nil => exact fun acc x h => Or.inl h
  | cons c cs ih =>
    intro acc x h
    rcases ih _ x h with h' | h'
    · have h'' : x ∈ (if visited.contains c || acc.contains c then acc
          else acc ++ [c]) := h'
      split at h''
      · exact Or.inl h''
      · next hc =>
        rcases List.mem_append.1 h'' with h₃ | h₃
        · exact Or.inl h₃
        · rcases List.mem_singleton.1 h₃
          refine Or.inr ⟨List.mem_cons_self c cs, ?_⟩
          intro hm
          exact hc (by simp [hm])
    · exact Or.inr ⟨List.mem_cons_of_mem c h'.1, h'.2⟩

/-- The inner candidate fold preserves freedom from duplicates. -/
theorem bfsInner_nodup (visited : List String) :
    ∀ (cs acc : List String), acc.Nodup →
      (cs.foldl (fun acc c =>
        if visited.contains c || acc.contains c then acc else acc ++ [c])
        acc).Nodup := by
  intro cs
  induction cs with
  | nil => exact fun acc h => h
  | cons c cs ih =>
    intro acc h
    apply ih
    show (if visited.contains c || acc.contains c then acc
      else acc ++ [c]).Nodup
    by_cases hc : (visited.contains c || acc.contains c) = true
    · rw [if_pos hc]; exact h
    · rw [if_neg hc]
      rw [List.nodup_append]
      refine ⟨h, List.nodup_singleton c, ?_⟩
      intro a ha hb
      rcases List.mem_singleton.1 hb
      exact hc (by simp [ha])

/-- Every node discovered in a BFS level is the source of a CALLS edge and
is not yet visited. -/
theorem bfsLevel_mem (g : KnowledgeGraph) (visited : List String) :
    ∀ (frontier acc : List String) (x : String),
      x ∈ frontier.foldl (fun acc f =>
        (callersOf g f).foldl (fun acc c =>
          if visited.contains c || acc.contains c then acc else acc ++ [c])
          acc) acc →
      x ∈ acc ∨
        (x ∈ (g.edges.filter (fun e => e.type = EdgeType.CALLS)).map
            (fun e => e.source) ∧ x ∉ visited) := by
  intro frontier
  induction frontier with
  | nil => exact fun acc x h => Or.inl h
  | cons f fs ih =>
    intro acc x h
    rcases ih _ x h with h' | h'
    · rcases bfsInner_mem visited _ _ x h' with h'' | h''
      · exact Or.inl h''
      · refine Or.inr ⟨?_, h''.2⟩
        obtain ⟨e, he, rfl⟩ := List.mem_map.1 h''.1
        have he₁ := List.mem_filter.1 he
        have he₂ := List.mem_filter.1 he₁.1
        exact List.mem_map.2 ⟨e, List.mem_filter.2 ⟨he₂.1, he₁.2⟩, rfl⟩
    · exact Or.inr h'

/-- Membership form of `bfsLevel_mem` for the whole level. -/
theorem bfsLevel_mem' (g : KnowledgeGraph) (visited frontier : List String)
    (x : String) (h : x ∈ bfsLevel g visited frontier) :
    x ∈ (g.edges.filter (fun e => e.type = EdgeType.CALLS)).map
        (fun e => e.source) ∧ x ∉ visited := by
  rcases bfsLevel_mem g visited frontier [] x h with h' | h'
  · cases h'
  · exact h'

/-- The outer fold of a BFS level preserves freedom from duplicates. -/
theorem bfsOuter_nodup (g : KnowledgeGraph) (visited : List String) :
    ∀ (frontier acc : List String), acc.Nodup →
      (frontier.foldl (fun acc f =>
        (callersOf g f).foldl (fun acc c =>
          if visited.contains c || acc.contains c then acc else acc ++ [c])
          acc) acc).Nodup := by
  intro frontier
  induction frontier with
  | nil => exact fun acc h => h
  | cons f fs ih =>
    intro acc h
    exact ih _ (bfsInner_nodup visited _ _ h)

/-- A BFS level never contains duplicates. -/
theorem bfsLevel_nodup (g : KnowledgeGraph) (visited frontier : List String) :
    (bfsLevel g visited frontier).Nodup :=
  bfsOuter_nodup g visited frontier [] List.nodup_nil

/-- Unfolding of one BFS step. -/
theorem bfsAux_succ (g : KnowledgeGraph) (fuel : Nat)
    (visited frontier order : List String) (depth : Nat) :
    bfsAux g (fuel + 1) visited frontier order depth =
      if bfsLevel g visited frontier = [] then (order, depth)
      else bfsAux g fuel (visited ++ bfsLevel g visited frontier)
        (bfsLevel g visited frontier) (order ++ bfsLevel g visited frontier)
        (depth + 1) := rfl

/-- Invariant of the BFS loop: the discovery order stays duplicate-free and
never contains the start node. -/
theorem bfsAux_inv (g : KnowledgeGraph) (start : String) :
    ∀ (fuel : Nat) (visited frontier order : List String) (depth : Nat),
      order.Nodup → (∀ x ∈ order, x ∈ visited) → start ∈ visited →
      start ∉ order →
      (bfsAux g fuel visited frontier order depth).1.Nodup ∧
        start ∉ (bfsAux g fuel visited frontier order depth).1 := by
  intro fuel
  induction fuel with
  | zero => exact fun visited frontier order depth h1 h2 h3 h4 => ⟨h1, h4⟩
  | succ fuel ih =>
    intro visited frontier order depth h1 h2 h3 h4
    rw [bfsAux_succ]
    by_cases hn : bfsLevel g visited frontier = []
    · rw [if_pos hn]; exact ⟨h1, h4⟩
    · rw [if_neg hn]
      apply ih
      · rw [List.nodup_append]
        refine ⟨h1, bfsLevel_nodup g visited frontier, ?_⟩
        intro a ha hb
        exact (bfsLevel_mem' g visited frontier a hb).2 (h2 a ha)
      · intro x hx
        rcases List.mem_append.1 hx with hx | hx
        · exact List.mem_append.2 (Or.inl (h2 x hx))
        · exact List.mem_append.2 (Or.inr hx)
      · exact List.mem_append.2 (Or.inl h3)
      · intro hx
        rcases List.mem_append.1 hx with hx | hx
        · exact h4 hx
        · exact (bfsLevel_mem' g visited frontier start hx).2 h3

/-- The BFS loop is insensitive to the fuel once the fuel exceeds the
number of unvisited CALLS-edge sources: the traversal reaches an empty
level and stops by itself, also on cyclic call graphs. -/
theorem bfsAux_stable (g : KnowledgeGraph) :
    ∀ (fuel₁ fuel₂ : Nat) (visited frontier order : List String) (depth : Nat),
      (((g.edges.filter (fun e => e.type = EdgeType.CALLS)).map
          (fun e => e.source)).filter
          (fun s => !visited.contains s)).length < fuel₁ →
      (((g.edges.filter (fun e => e.type = EdgeType.CALLS)).map
          (fun e => e.source)).filter
          (fun s => !visited.contains s)).length < fuel₂ →
      bfsAux g fuel₁ visited frontier order depth =
        bfsAux g fuel₂ visited frontier order depth := by
  intro fuel₁
  induction fuel₁ with
  | zero => exact fun fuel₂ visited frontier order depth h1 _ =>
      absurd h1 (Nat.not_lt_zero _)
  | succ a ih =>
    intro fuel₂ visited frontier order depth h1 h2
    cases fuel₂ with
    | zero => exact absurd h2 (Nat.not_lt_zero _)
    | succ b =>
      rw [bfsAux_succ, bfsAux_succ]
      by_cases hn : bfsLevel g visited frontier = []
      · rw [if_pos hn, if_pos hn]
      · rw [if_neg hn, if_neg hn]
        obtain ⟨x, hx⟩ := List.exists_mem_of_ne_nil _ hn
        have hxS := bfsLevel_mem' g visited frontier x hx
        have hmono : List.Sublist
            ((((g.edges.filter (fun e => e.type = EdgeType.CALLS)).map
              (fun e => e.source)).filter
              (fun s => !(visited ++ bfsLevel g visited frontier).contains s)))
            ((((g.edges.filter (fun e => e.type = EdgeType.CALLS)).map
              (fun e => e.source)).filter
              (fun s => !visited.contains s))) := by
          apply List.monotone_filter_right
          intro s hs
          simp only [Bool.not_eq_true, List.contains_eq_any_beq] at hs ⊢
          simp at hs ⊢
          exact hs.1
        have hxOld : x ∈ (((g.edges.filter
            (fun e => e.type = EdgeType.CALLS)).map (fun e => e.source)).filter
            (fun s => !visited.contains s)) := by
          refine List.mem_filter.2 ⟨hxS.1, ?_⟩
          simp [hxS.2]
        have hxNew : x ∉ (((g.edges.filter
            (fun e => e.type = EdgeType.CALLS)).map (fun e => e.source)).filter
            (fun s => !(visited ++ bfsLevel g visited frontier).contains s)) := by
          intro hmem
          have hmem2 := (List.mem_filter.1 hmem).2
          simp at hmem2
          exact hmem2.2 hx
        have hlt : ((((g.edges.filter (fun e => e.type = EdgeType.CALLS)).map
            (fun e => e.source)).filter
            (fun s => !(visited ++ bfsLevel g visited frontier).contains s))).length <
            ((((g.edges.filter (fun e => e.type = EdgeType.CALLS)).map
            (fun e => e.source)).filter
            (fun s => !visited.contains s))).length := by
          rcases Nat.eq_or_lt_of_le hmono.length_le with heq | hlt'
          · rw [hmono.eq_of_length heq] at hxNew
            exact absurd hxOld hxNew
          · exact hlt'
        exact ih b _ _ _ _ (by omega) (by omega)

/-- C3: for every graph and function id present in it, the blast radius
contains no duplicate ids and never the start id itself, and the traversal
is fuel-insensitive beyond the chosen bound — it stops by itself even on
cyclic CALLS graphs. -/
theorem c3_blast_radius_no_dup_terminates (g : KnowledgeGraph) (f : String)
    (_hf : ∃ nd ∈ g.nodes, nd.id = f) :
    (functionBlastRadius g f).affectedFunctions.Nodup ∧
      f ∉ (functionBlastRadius g f).affectedFunctions ∧
      ∀ fuel, bfsFuel g ≤ fuel →
        bfsAux g fuel [f] [f] [] 0 = bfsAux g (bfsFuel g) [f] [f] [] 0 := by
  have hinv := bfsAux_inv g f (bfsFuel g) [f] [f] [] 0 List.nodup_nil
    (by intro x hx; cases hx) (List.mem_singleton.2 rfl) (by intro hx; cases hx)
  refine ⟨hinv.1, hinv.2, ?_⟩
  intro fuel hfuel
  have hlen : (((g.edges.filter (fun e => e.type = EdgeType.CALLS)).map
      (fun e => e.source)).filter (fun s => !([f] : List String).contains s)).length <
      bfsFuel g := by
    have h1 := List.length_filter_le
      (fun s => !([f] : List String).contains s)
      ((g.edges.filter (fun e => e.type = EdgeType.CALLS)).map (fun e => e.source))
    have h2 : ((g.edges.filter (fun e => e.type = EdgeType.CALLS)).map
        (fun e => e.source)).length ≤ g.edges.length := by
      rw [List.length_map]
      exact List.length_filter_le _ _
    unfold bfsFuel
    omega
  exact bfsAux_stable g fuel (bfsFuel g) [f] [f] [] 0 (by omega) hlen

/-- Unfolding of one DFS visit. -/
theorem visit_succ (g : List (String × List String)) (fuel : Nat)
    (node : String) (path : List String) (st : DfsState) :
    visit g (fuel + 1) node path st =
      eraseNode node ((neighborsOf g node).foldl (fun s nb =>
        if s.visited.contains nb then
          if s.stack.contains nb then pushCycle (path ++ [node]) nb s
          else s
        else visit g fuel nb (path ++ [node]) s)
        ⟨st.visited ++ [node], st.stack ++ [node], st.cycles⟩) := rfl

/-- Blocking more nodes can only shrink the unvisited remainder. -/
theorem filter_not_contains_mono (L v t : List String) :
    List.Sublist (L.filter (fun x => !(v ++ t).contains x))
      (L.filter (fun x => !v.contains x)) := by
  apply List.monotone_filter_right
  intro s hs
  simp at hs ⊢
  exact hs.1

/-- Blocking a fresh listed node strictly shrinks the unvisited remainder. -/
theorem filter_not_contains_strict (L v t : List String) (x : String)
    (hxL : x ∈ L) (hxv : x ∉ v) (hxt : x ∈ t) :
    (L.filter (fun s => !(v ++ t).contains s)).length <
      (L.filter (fun s => !v.contains s)).length := by
  have hmono := filter_not_contains_mono L v t
  have hxOld : x ∈ L.filter (fun s => !v.contains s) :=
    List.mem_filter.2 ⟨hxL, by simp [hxv]⟩
  have hxNew : x ∉ L.filter (fun s => !(v ++ t).contains s) := by
    intro hmem
    have h2 := (List.mem_filter.1 hmem).2
    simp at h2
    exact h2.2 hxt
  rcases Nat.eq_or_lt_of_le hmono.length_le with heq | hlt
  · rw [hmono.eq_of_length heq] at hxNew
    exact absurd hxOld hxNew
  · exact hlt

/-- A fold whose every step only appends to the visited list only appends
to the visited list. -/
theorem foldl_visited_mono {α : Type} (step : DfsState → α → DfsState)
    (hstep : ∀ s nb, ∃ t, (step s nb).visited = s.visited ++ t) :
    ∀ (l : List α) (s : DfsState), ∃ t,
      (l.foldl step s).visited = s.visited ++ t := by
  intro l
  induction l with
  | nil => exact fun s => ⟨[], by simp⟩
  | cons nb l ihl =>
    intro s
    obtain ⟨t₁, ht₁⟩ := hstep s nb
    obtain ⟨t₂, ht₂⟩ := ihl (step s nb)
    exact ⟨t₁ ++ t₂, by rw [List.foldl_cons, ht₂, ht₁, List.append_assoc]⟩

/-- The DFS visit only appends to the visited list. -/
theorem visit_visited_mono (g : List (String × List String)) :
    ∀ (fuel : Nat) (node : String) (path : List String) (st : DfsState),
      ∃ t, (visit g fuel node path st).visited = st.visited ++ t := by
  intro fuel
  induction fuel with
  | zero => exact fun node path st => ⟨[], by simp [visit]⟩
  | succ fuel ih =>
    intro node path st
    rw [visit_succ]
    have hstep : ∀ (s : DfsState) (nb : String), ∃ t,
        (if s.visited.contains nb then
          if s.stack.contains nb then pushCycle (path ++ [node]) nb s
          else s
        else visit g fuel nb (path ++ [node]) s).visited = s.visited ++ t := by
      intro s nb
      by_cases h1 : nb ∈ s.visited
      · have hvb : s.visited.contains nb = true := by simp [h1]
        by_cases h2 : nb ∈ s.stack
        · have hsb : s.stack.contains nb = true := by simp [h2]
          exact ⟨[], by rw [if_pos hvb, if_pos hsb]; simp [pushCycle]⟩
        · have hsb : ¬(s.stack.contains nb = true) := by simp [h2]
          exact ⟨[], by rw [if_pos hvb, if_neg hsb]; simp⟩
      · have hvb : ¬(s.visited.contains nb = true) := by simp [h1]
        obtain ⟨t, ht⟩ := ih nb (path ++ [node]) s
        exact ⟨t, by rw [if_neg hvb]; exact ht⟩
    obtain ⟨t, ht⟩ := foldl_visited_mono
      (fun s nb =>
        if s.visited.contains nb then
          if s.stack.contains nb then pushCycle (path ++ [node]) nb s
          else s
        else visit g fuel nb (path ++ [node]) s)
      hstep
      (neighborsOf g node)
      ⟨st.visited ++ [node], st.stack ++ [node], st.cycles⟩
    exact ⟨[node] ++ t, by
      show (_ : DfsState).visited = _
      rw [eraseNode, ht, List.append_assoc]⟩

/-- Two folds whose steps agree on states satisfying an invariant, over
elements satisfying a side condition, produce the same state. -/
theorem foldl_step_congr {α : Type} (f h : DfsState → α → DfsState)
    (P : DfsState → Prop) (Q : α → Prop)
    (hcong : ∀ s nb, P s → Q nb → f s nb = h s nb)
    (hpres : ∀ s nb, P s → Q nb → P (f s nb)) :
    ∀ (l : List α) (s : DfsState), (∀ nb ∈ l, Q nb) → P s →
      l.foldl f s = l.foldl h s := by
  intro l
  induction l with
  | nil => exact fun s _ _ => rfl
  | cons nb l ihl =>
    intro s hQ hP
    have hq := hQ nb (List.mem_cons_self nb l)
    have he := hcong s nb hP hq
    rw [List.foldl_cons, List.foldl_cons, he]
    refine ihl (h s nb) (fun x hx => hQ x (List.mem_cons_of_mem nb hx)) ?_
    rw [← he]
    exact hpres s nb hP hq

/-- Neighbors in an adjacency list are among its names. -/
theorem neighborsOf_sub (g : List (String × List String)) (n : String) :
    ∀ x ∈ neighborsOf g n, x ∈ dfsNames g := by
  intro x hx
  unfold neighborsOf at hx
  cases hf : g.find? (fun kv => kv.1 = n) with
  | none => rw [hf] at hx; cases hx
  | some kv =>
    rw [hf] at hx
    simp at hx
    refine List.mem_append.2 (Or.inr ?_)
    exact List.mem_flatten.2 ⟨kv.2,
      List.mem_map.2 ⟨kv, List.mem_of_find?_eq_some hf, rfl⟩, hx⟩

/-- The DFS visit is insensitive to the fuel once the fuel exceeds the
number of unvisited names of the adjacency list: the visited set guards
every recursive descent, also on cyclic graphs. -/
theorem visit_stable (g : List (String × List String)) :
    ∀ (f₁ f₂ : Nat) (node : String) (path : List String) (st : DfsState),
      node ∈ dfsNames g → node ∉ st.visited →
      ((dfsNames g).filter (fun x => !st.visited.contains x)).length < f₁ →
      ((dfsNames g).filter (fun x => !st.visited.contains x)).length < f₂ →
      visit g f₁ node path st = visit g f₂ node path st := by
  intro f₁
  induction f₁ with
  | zero => exact fun f₂ node path st _ _ h1 _ =>
      absurd h1 (Nat.not_lt_zero _)
  | succ a ih =>
    intro f₂ node path st hnode hnotv h1 h2
    cases f₂ with
    | zero => exact absurd h2 (Nat.not_lt_zero _)
    | succ b =>
      rw [visit_succ, visit_succ]
      congr 1
      apply foldl_step_congr _ _
        (fun s => ∃ t, s.visited = (st.visited ++ [node]) ++ t)
        (fun nb => nb ∈ dfsNames g)
      · intro s nb hP hq
        show (if s.visited.contains nb then
            if s.stack.contains nb then pushCycle (path ++ [node]) nb s
            else s
          else visit g a nb (path ++ [node]) s) =
          (if s.visited.contains nb then
            if s.stack.contains nb then pushCycle (path ++ [node]) nb s
            else s
          else visit g b nb (path ++ [node]) s)
        by_cases hv : nb ∈ s.visited
        · have hvb : s.visited.contains nb = true := by simp [hv]
          rw [if_pos hvb, if_pos hvb]
        · have hvb : ¬(s.visited.contains nb = true) := by simp [hv]
          obtain ⟨t, ht⟩ := hP
          have hlt : ((dfsNames g).filter
              (fun x => !s.visited.contains x)).length <
              ((dfsNames g).filter
                (fun x => !st.visited.contains x)).length := by
            rw [ht, List.append_assoc]
            exact filter_not_contains_strict (dfsNames g) st.visited
              ([node] ++ t) node hnode hnotv (by simp)
          have he := ih b nb (path ++ [node]) s hq hv
            (by omega) (by omega)
          rw [if_neg hvb, if_neg hvb]
          exact he
      · intro s nb hP hq
        show ∃ u, (if s.visited.contains nb then
            if s.stack.contains nb then pushCycle (path ++ [node]) nb s
            else s
          else visit g a nb (path ++ [node]) s).visited =
          (st.visited ++ [node]) ++ u
        obtain ⟨t, ht⟩ := hP
        by_cases hv : nb ∈ s.visited
        · have hvb : s.visited.contains nb = true := by simp [hv]
          by_cases hstk : nb ∈ s.stack
          · have hsb : s.stack.contains nb = true := by simp [hstk]
            exact ⟨t, by rw [if_pos hvb, if_pos hsb]; exact ht⟩
          · have hsb : ¬(s.stack.contains nb = true) := by simp [hstk]
            exact ⟨t, by rw [if_pos hvb, if_neg hsb]; exact ht⟩
        · have hvb : ¬(s.visited.contains nb = true) := by simp [hv]
          obtain ⟨t₂, ht₂⟩ := visit_visited_mono g a nb (path ++ [node]) s
          refine ⟨t ++ t₂, ?_⟩
          rw [if_neg hvb, ht₂, ht, List.append_assoc]
      · exact neighborsOf_sub g node
      · exact ⟨[], (List.append_nil _).symm⟩

/-- findCycles is insensitive to the fuel beyond the chosen bound: the DFS
stops by itself on every finite dependency list. -/
theorem findCyclesFuel_stable (deps : List Dependency) :
    ∀ fuel, dfsFuel deps ≤ fuel →
      findCyclesFuel deps fuel = findCyclesFuel deps (dfsFuel deps) := by
  intro fuel hfuel
  unfold findCyclesFuel
  congr 1
  apply foldl_step_congr _ _ (fun _ => True)
    (fun kv : String × List String => kv.1 ∈ dfsNames (buildAdj deps))
  · intro s kv _ hq
    show (if s.visited.contains kv.1 then s
        else visit (buildAdj deps) fuel kv.1 [] s) =
      (if s.visited.contains kv.1 then s
        else visit (buildAdj deps) (dfsFuel deps) kv.1 [] s)
    by_cases hv : kv.1 ∈ s.visited
    · have hvb : s.visited.contains kv.1 = true := by simp [hv]
      rw [if_pos hvb, if_pos hvb]
    · have hvb : ¬(s.visited.contains kv.1 = true) := by simp [hv]
      have hm : ((dfsNames (buildAdj deps)).filter
          (fun x => !s.visited.contains x)).length < dfsFuel deps := by
        have := List.length_filter_le (fun x => !s.visited.contains x)
          (dfsNames (buildAdj deps))
        unfold dfsFuel
        omega
      have he := visit_stable (buildAdj deps) fuel (dfsFuel deps) kv.1 [] s
        hq hv (by omega) hm
      rw [if_neg hvb, if_neg hvb]
      exact he
  · exact fun _ _ _ _ => trivial
  · intro kv hkv
    exact List.mem_append.2 (Or.inl (List.mem_map.2 ⟨kv, hkv, rfl⟩))
  · trivial

/-- C6: findCycles returns no cycle on the acyclic dependency list A to B,
B to C, and the visited-set/recursion-stack DFS terminates on every finite
dependency list — the result is insensitive to any fuel beyond the chosen
bound, the traversal stopping by itself. -/
theorem c6_find_cycles_acyclic_terminates :
    findCycles acyclicDeps = [] ∧
      ∀ (deps : List Dependency) (fuel : Nat), dfsFuel deps ≤ fuel →
        findCyclesFuel deps fuel = findCycles deps :=
  ⟨by decide, fun deps fuel h => findCyclesFuel_stable deps fuel h⟩

/-- Witness for C6: the cyclic dependency list with surplus fuel 12. -/
theorem c6_find_cycles_acyclic_terminates_witness :
    findCycles acyclicDeps = [] ∧ dfsFuel cyclicDeps ≤ 12 ∧
      findCyclesFuel cyclicDeps 12 = findCycles cyclicDeps :=
  ⟨c6_find_cycles_acyclic_terminates.1, by decide,
    c6_find_cycles_acyclic_terminates.2 cyclicDeps 12 (by decide)⟩

/-- Witness for C3 on the cyclic CALLS graph, starting from A with fuel 10. -/
theorem c3_blast_radius_no_dup_terminates_witness :
    (∃ nd ∈ cycleGraph.nodes, nd.id = "A") ∧
      ((functionBlastRadius cycleGraph "A").affectedFunctions.Nodup ∧
        "A" ∉ (functionBlastRadius cycleGraph "A").affectedFunctions ∧
        ∀ fuel, bfsFuel cycleGraph ≤ fuel →
          bfsAux cycleGraph fuel ["A"] ["A"] [] 0 =
            bfsAux cycleGraph (bfsFuel cycleGraph) ["A"] ["A"] [] 0) :=
  ⟨⟨⟨"A", .Function, {name := some "A", file := some "a.ts"}⟩,
      by decide, by decide⟩,
    c3_blast_radius_no_dup_terminates cycleGraph "A"
      ⟨⟨"A", .Function, {name := some "A", file := some "a.ts"}⟩,
        by decide, by decide⟩⟩

end Cartographer
